import Mathlib

set_option maxHeartbeats 1000000
set_option linter.unusedSectionVars false

/-!
Shallow embedding of the gxx/info_dict repository
(src/info_dict/helpers.py and src/info_dict/info_dict.py).

Modelling conventions:
* Python dictionaries are association lists (`Dict K V`); the operations
  `dictLookup`, `dictInsert`, `dictUpdate` mirror `d[k]`, `d[k] = v` and
  `dict.update`.
* Python exceptions are an explicit error type `PyError`; fallible code
  returns `Except PyError _`.
* Python values flowing through the info machinery are the closed type
  `Value K`: opaque atoms, dictionaries, and the `safe` wrapper produced by
  the external `mark_safe` collaborator (django.utils.safestring.mark_safe).
* A tagged function (`AttrFunc`) carries a numeric `id` standing for the
  function object's identity (the key used by the per-instance cache
  `cache_store[self.func]`) and a `hashVal` standing for `hash(self.func)`
  (the registry key of a concat item).  A function body may raise: `skip()`
  raises `InfoStoreItemIgnoreError`, modelled by the `.error .ignoreError`
  result.
* The per-instance cache attribute `_info_item_cache` is explicit state of
  type `CacheStore K`, threaded through `getvalue` and `evaluate`; a fresh
  instance starts from the empty store.  `getvalue` additionally reports how
  many times it invoked the wrapped function.
-/

inductive PyError where
  | predicateFailure
  | ignoreError
  | valueError
  | typeError
  | keyError
  | attributeError
  | runtimeError
  deriving DecidableEq

inductive Value (K : Type) where
  | atom (n : Nat)
  | safe (v : Value K)
  | vdict (entries : List (K × Value K))

abbrev Dict (K V : Type) := List (K × V)

variable {I K V : Type} [DecidableEq K]

def dictLookup : Dict K V → K → Option V
  | [], _ => none
  | (k0, v0) :: rest, k => if k = k0 then some v0 else dictLookup rest k

def dictHasKey (d : Dict K V) (k : K) : Bool :=
  (dictLookup d k).isSome

def dictInsert : Dict K V → K → V → Dict K V
  | [], k, v => [(k, v)]
  | (k0, v0) :: rest, k, v =>
    if k = k0 then (k0, v) :: rest else (k0, v0) :: dictInsert rest k v

def dictUpdate (a b : Dict K V) : Dict K V :=
  b.foldl (fun acc p => dictInsert acc p.1 p.2) a

def dictKeys (d : Dict K V) : List K :=
  d.map (fun p => p.1)

/-- Boolean membership test, modelling the Python `in` operator on the
set/list containers used by the source. -/
def listHas : List K → K → Bool
  | [], _ => false
  | x :: rest, k => if k = x then true else listHas rest k

/-!  helpers.py -/

/-- helpers.py `ConcatableDict.join_dicts`: builds a fresh dictionary from
the entries of `dicta` (`ConcatableDict(dicta)`) and applies
`new_dict.update(dictb)`, so on overlapping keys the entry of `dictb` wins.
Neither argument is mutated: a new dictionary is returned. -/
def ConcatableDict.join_dicts (dicta dictb : Dict K V) : Dict K V :=
  dictUpdate dicta dictb

/-- helpers.py `ConcatableDict.__add__`: `self + other`. -/
def ConcatableDict.add (self other : Dict K V) : Dict K V :=
  ConcatableDict.join_dicts self other

/-- helpers.py `ConcatableDict.__radd__`: evaluates `other + self` when the
left operand `other` is not itself a ConcatableDict. -/
def ConcatableDict.radd (self other : Dict K V) : Dict K V :=
  ConcatableDict.join_dicts other self

/-- The outcome of creating a class through the metaclass machinery.
`frozenSetattrInstalled` records whether the class dictionary received the
freezing `__setattr__` (helpers.py line 20, `dct['__setattr__'] =
mcs.setattr`). -/
structure CreatedClass where
  frozenSetattrInstalled : Bool
  deriving DecidableEq

/-- helpers.py `FrozenMeta.__new__`: installs the freezing `__setattr__`
into the class dictionary before creating the type. -/
def frozenMetaNew : CreatedClass :=
  { frozenSetattrInstalled := true }

/-- info_dict.py `InfoDictMeta.__new__` (lines 412-422): stores the class
level `InfoStore` and then calls `super(FrozenMeta, mcs).__new__`, i.e. it
delegates directly to `type.__new__` and bypasses `FrozenMeta.__new__`, so
the freezing `__setattr__` is never installed on InfoDict classes. -/
def infoDictMetaNew : CreatedClass :=
  { frozenSetattrInstalled := false }

/-- An object of a class produced by the metaclass machinery: its class, its
attribute dictionary, and the value of the `_frozen` attribute (class
default `False`, set by `FrozenMeta.__init__`). -/
structure PyInstance (K V : Type) where
  cls : CreatedClass
  attrs : Dict K V
  frozen : Bool

/-- Attribute assignment on an instance.  When the class carries the frozen
`__setattr__` (helpers.py `FrozenMeta.setattr`, lines 48-57) the assignment
raises `RuntimeError` whenever `getattr(self, '_frozen', False)` is truthy;
otherwise, and on classes without the installed setter, the plain
`object.__setattr__` stores the value. -/
def setattrOn (o : PyInstance K V) (k : K) (v : V) :
    Except PyError (PyInstance K V) :=
  if o.cls.frozenSetattrInstalled && o.frozen then .error .runtimeError
  else .ok { o with attrs := dictInsert o.attrs k v }

/-- The attribute assignments performed by an `__init__` body, executed in
order through the instance's setattr. -/
def runInitAssignments (o : PyInstance K V) :
    List (K × V) → Except PyError (PyInstance K V)
  | [] => .ok o
  | (k, v) :: rest =>
    match setattrOn o k v with
    | .error e => .error e
    | .ok o2 => runInitAssignments o2 rest

/-- helpers.py `FrozenMeta.__call__` (lines 35-46): creates the instance
(running `__init__`, modelled by its attribute assignments, with `_frozen`
still `False`), then performs `instance._frozen = True`. -/
def frozenMetaCall (cls : CreatedClass) (asgn : List (K × V)) :
    Except PyError (PyInstance K V) :=
  match runInitAssignments { cls := cls, attrs := [], frozen := false } asgn with
  | .error e => .error e
  | .ok o => .ok { o with frozen := true }

/-!  info_dict.py -/

/-- A tagged function: `id` models the function object's identity (cache
key), `hashVal` models `hash(func)` (registry key of concat items), and
`run` is the function body, which can raise (`skip()` raises
`InfoStoreItemIgnoreError`). -/
structure AttrFunc (I K : Type) where
  id : Nat
  hashVal : K
  run : I → Except PyError (Value K)

/-- info_dict.py `ConcatOptions` (lines 26-41). -/
structure ConcatOptions (K : Type) where
  excludeKeys : List K := []
  includeKeys : List K := []

/-- The two registered item shapes produced by
`InfoDictAttributeInfo.get_instance`: `InfoStoreItem` (lines 224-241) and
`ConcatInfoStoreItem` (lines 244-289).  Options (`cache`, `predicate`,
`marksafe`) are read from `func.info_attribute_options`; a concat item also
carries its include/exclude containers (converted to sets by
`ConcatInfoStoreItem.__init__`; sets are modelled as lists used only through
membership). -/
inductive InfoStoreObject (I K : Type) where
  | infoStoreItem (func : AttrFunc I K) (key : K) (cache : Bool)
      (predicate : Option (I → Bool)) (marksafe : Bool)
  | concatInfoStoreItem (func : AttrFunc I K) (cache : Bool)
      (predicate : Option (I → Bool)) (marksafe : Bool)
      (includeKeys excludeKeys : List K)

def InfoStoreObject.func : InfoStoreObject I K → AttrFunc I K
  | .infoStoreItem f _ _ _ _ => f
  | .concatInfoStoreItem f _ _ _ _ _ => f

def InfoStoreObject.cache : InfoStoreObject I K → Bool
  | .infoStoreItem _ _ c _ _ => c
  | .concatInfoStoreItem _ c _ _ _ _ => c

def InfoStoreObject.predicate : InfoStoreObject I K → Option (I → Bool)
  | .infoStoreItem _ _ _ p _ => p
  | .concatInfoStoreItem _ _ p _ _ _ => p

def InfoStoreObject.marksafe : InfoStoreObject I K → Bool
  | .infoStoreItem _ _ _ _ m => m
  | .concatInfoStoreItem _ _ _ m _ _ => m

/-- The concat flag: `InfoStoreItem.concat` is `False`, `ConcatInfoStoreItem.concat` is
`True`. -/
def InfoStoreObject.concat : InfoStoreObject I K → Bool
  | .infoStoreItem _ _ _ _ _ => false
  | .concatInfoStoreItem _ _ _ _ _ _ => true

/-- The key of an item: the declared key for a simple item, and
`hash(self.func)` (line 270) for a concat item. -/
def InfoStoreObject.key : InfoStoreObject I K → K
  | .infoStoreItem _ k _ _ _ => k
  | .concatInfoStoreItem f _ _ _ _ _ => f.hashVal

/-- info_dict.py `ConcatInfoStoreItem.isexcluded` (line 272):
`key not in self._include and key in self._exclude`. -/
def isexcluded (includeKeys excludeKeys : List K) (k : K) : Bool :=
  !(listHas includeKeys k) && listHas excludeKeys k

/-- info_dict.py `ConcatInfoStoreItem.isincluded` (line 276):
`not self.isexcluded(key)`. -/
def isincluded (includeKeys excludeKeys : List K) (k : K) : Bool :=
  !(isexcluded includeKeys excludeKeys k)

/-- The `processvalue` step: a simple item calls `self.func(instance)` (line 241); a
concat item calls the function and keeps exactly the entries of the
returned dictionary whose key `isincluded` (line 289).  A concat function
returning a non-dictionary value cannot be merged (modelled as
`TypeError`). -/
def InfoStoreObject.processvalue : InfoStoreObject I K → I → Except PyError (Value K)
  | .infoStoreItem f _ _ _ _, inst => f.run inst
  | .concatInfoStoreItem f _ _ _ incl excl, inst =>
    match f.run inst with
    | .error e => .error e
    | .ok (.vdict entries) =>
        .ok (.vdict (entries.filter (fun p => isincluded incl excl p.1)))
    | .ok _ => .error .typeError

/-- The external collaborator `django.utils.safestring.mark_safe`, modelled
as wrapping the value in the `safe` constructor. -/
def mark_safe (v : Value K) : Value K :=
  Value.safe v

/-- info_dict.py `InfoStoreObjectBase._get_and_process_value` (lines
168-173): computes `processvalue` and applies `mark_safe` when the item is
tagged marksafe. -/
def InfoStoreObject.get_and_process_value (it : InfoStoreObject I K) (inst : I) :
    Except PyError (Value K) :=
  match it.processvalue inst with
  | .error e => .error e
  | .ok v => .ok (if it.marksafe then mark_safe v else v)

/-- The predicate test at the top of `getvalue` (line 196):
`self.predicate and not self.predicate(self, instance)` raises; `predOk`
is true when the predicate is absent or returns a truthy value.  (The item
argument `self` passed to the predicate is the closure's own item and is
curried away in the model.) -/
def predOk (it : InfoStoreObject I K) (inst : I) : Bool :=
  match it.predicate with
  | some p => p inst
  | none => true

/-- The per-instance cache attribute `_info_item_cache`, keyed by the
identity of the wrapped function (`cache_store[self.func]`). -/
abbrev CacheStore (K : Type) := Dict Nat (Value K)

/-- info_dict.py `InfoStoreObjectBase.getvalue` (lines 189-212).  Returns
the outcome, the updated per-instance cache store, and the number of times
the wrapped function was invoked during the call. -/
def InfoStoreObject.getvalue (it : InfoStoreObject I K) (inst : I)
    (cache : CacheStore K) :
    Except PyError (Value K) × CacheStore K × Nat :=
  if predOk it inst = false then (.error .predicateFailure, cache, 0)
  else if it.cache then
    match dictLookup cache it.func.id with
    | some v => (.ok v, cache, 0)
    | none =>
      match it.get_and_process_value inst with
      | .ok v => (.ok v, dictInsert cache it.func.id v, 1)
      | .error e => (.error e, cache, 1)
  else
    match it.get_and_process_value inst with
    | .ok v => (.ok v, cache, 1)
    | .error e => (.error e, cache, 1)

/-- info_dict.py `InstanceInfoStore.validate_unique_keys` (lines 342-352):
raises `ValueError` when the key sets of the two dictionaries intersect. -/
def validate_unique_keys (dict_a dict_b : Dict K (Value K)) :
    Except PyError Unit :=
  if (dictKeys dict_a).any (fun k => listHas (dictKeys dict_b) k) then
    .error .valueError
  else .ok ()

/-- The exceptions caught by the `except` clause of `evaluate` (line 331):
`InfoStoreItemPredicateFailure` and `InfoStoreItemIgnoreError`. -/
def caughtByEvaluate : PyError → Bool
  | .predicateFailure => true
  | .ignoreError => true
  | _ => false

/-- The loop body of `InstanceInfoStore.evaluate` (lines 320-340), folded
over the registered `(item_key, item_object)` pairs: a failed predicate or
an ignore signal skips the item; the value of a concat item is validated
against the keys accumulated so far and merged with `dict.update`; any
other item is stored under its registry key. -/
def evaluateAux (inst : I) :
    List (K × InfoStoreObject I K) → CacheStore K → Dict K (Value K) →
    Except PyError (Dict K (Value K)) × CacheStore K
  | [], cache, acc => (.ok acc, cache)
  | (item_key, item_object) :: rest, cache, acc =>
    match item_object.getvalue inst cache with
    | (.error e, c2, _) =>
      if caughtByEvaluate e then evaluateAux inst rest c2 acc
      else (.error e, c2)
    | (.ok item_value, c2, _) =>
      if item_object.concat then
        match item_value with
        | .vdict dv =>
          match validate_unique_keys acc dv with
          | .error e => (.error e, c2)
          | .ok _ => evaluateAux inst rest c2 (dictUpdate acc dv)
        | _ => (.error .typeError, c2)
      else evaluateAux inst rest c2 (dictInsert acc item_key item_value)

/-- info_dict.py `InstanceInfoStore.evaluate`: evaluates the registered
items against the stored context instance, starting from an empty result
dictionary. -/
def InstanceInfoStore.evaluate (registered_items : List (K × InfoStoreObject I K))
    (inst : I) (cache : CacheStore K) :
    Except PyError (Dict K (Value K)) × CacheStore K :=
  evaluateAux inst registered_items cache []

/-- info_dict.py `InfoStore.register` (lines 392-402), applied to the item
built from the function's attribute options: a duplicate key raises
`ValueError`, otherwise the item is stored under its key. -/
def InfoStore.register (registered_items : Dict K (InfoStoreObject I K))
    (info_item : InfoStoreObject I K) :
    Except PyError (Dict K (InfoStoreObject I K)) :=
  if dictHasKey registered_items info_item.key then .error .valueError
  else .ok (dictInsert registered_items info_item.key info_item)

/-- info_dict.py `InfoDict.__init__` (lines 455-461): the base dictionary
is first filled from the constructor arguments (`initialEntries`), then
`self.update(self.info_store.evaluate())` merges the evaluated items over
it.  A fresh instance carries no `_info_item_cache` attribute, so
evaluation starts from the empty cache store. -/
def InfoDict.init (registered_items : List (K × InfoStoreObject I K)) (inst : I)
    (initialEntries : Dict K (Value K)) :
    Except PyError (Dict K (Value K) × CacheStore K) :=
  match InstanceInfoStore.evaluate registered_items inst [] with
  | (.ok evaluated, cache) => .ok (dictUpdate initialEntries evaluated, cache)
  | (.error e, _) => .error e

/-- Dictionary item access `self[item]`, raising `KeyError` on a missing
key. -/
def dict_getitem (d : Dict K V) (k : K) : Except PyError V :=
  match dictLookup d k with
  | some v => .ok v
  | none => .error .keyError

/-- info_dict.py `InfoDict.__getattr__` (lines 463-474): looks the name up
as a dictionary key and converts `KeyError` into `AttributeError`. -/
def InfoDict.getattr (d : Dict K V) (item : K) : Except PyError V :=
  match dict_getitem d item with
  | .ok v => .ok v
  | .error .keyError => .error .attributeError
  | .error e => .error e

/-!  Basic lemmas about the dictionary model -/

@[simp] theorem dictKeys_nil : dictKeys ([] : Dict K V) = [] := rfl

@[simp] theorem dictKeys_cons (p : K × V) (d : Dict K V) :
    dictKeys (p :: d) = p.1 :: dictKeys d := rfl

@[simp] theorem dictUpdate_nil (a : Dict K V) : dictUpdate a [] = a := rfl

@[simp] theorem dictUpdate_cons (a : Dict K V) (p : K × V) (b : Dict K V) :
    dictUpdate a (p :: b) = dictUpdate (dictInsert a p.1 p.2) b := rfl

theorem dictLookup_insert_self (d : Dict K V) (k : K) (v : V) :
    dictLookup (dictInsert d k v) k = some v := by
  induction d with
  | nil => simp [dictInsert, dictLookup]
  | cons p rest ih =>
    obtain ⟨k0, v0⟩ := p
    by_cases h : k = k0
    · simp [dictInsert, h, dictLookup]
    · simp [dictInsert, h, dictLookup, ih]

theorem dictLookup_insert_ne (d : Dict K V) (k q : K) (v : V) (h : q ≠ k) :
    dictLookup (dictInsert d k v) q = dictLookup d q := by
  induction d with
  | nil => simp [dictInsert, dictLookup, h]
  | cons p rest ih =>
    obtain ⟨k0, v0⟩ := p
    by_cases hk : k = k0
    · subst hk; simp [dictInsert, dictLookup, h]
    · by_cases hq : q = k0 <;> simp [dictInsert, hk, dictLookup, hq, ih]

theorem mem_dictKeys_of_lookup (d : Dict K V) (q : K) (v : V)
    (h : dictLookup d q = some v) : q ∈ dictKeys d := by
  induction d with
  | nil => simp [dictLookup] at h
  | cons p rest ih =>
    obtain ⟨k0, v0⟩ := p
    by_cases hq : q = k0
    · simp [hq]
    · simp [dictLookup, hq] at h
      simp [ih h]

theorem mem_dictKeys_insert (d : Dict K V) (k q : K) (v : V) :
    q ∈ dictKeys (dictInsert d k v) ↔ q ∈ dictKeys d ∨ q = k := by
  induction d with
  | nil => simp [dictInsert]
  | cons p rest ih =>
    obtain ⟨k0, v0⟩ := p
    by_cases hk : k = k0
    · subst hk; simp [dictInsert]; tauto
    · simp [dictInsert, hk, ih]; tauto

theorem dictKeys_insert_nodup (d : Dict K V) (k : K) (v : V)
    (h : (dictKeys d).Nodup) : (dictKeys (dictInsert d k v)).Nodup := by
  induction d with
  | nil => simp [dictInsert]
  | cons p rest ih =>
    obtain ⟨k0, v0⟩ := p
    rw [dictKeys_cons] at h
    obtain ⟨h1, h2⟩ := List.nodup_cons.mp h
    by_cases hk : k = k0
    · subst hk; simpa [dictInsert] using h
    · rw [show dictInsert ((k0, v0) :: rest) k v = (k0, v0) :: dictInsert rest k v by
        simp [dictInsert, hk]]
      rw [dictKeys_cons]
      refine List.nodup_cons.mpr ⟨?_, ih h2⟩
      rw [mem_dictKeys_insert]
      rintro (hm | hm)
      · exact h1 hm
      · exact hk hm.symm

theorem dictLookup_update_notMem (a b : Dict K V) (q : K)
    (h : q ∉ dictKeys b) :
    dictLookup (dictUpdate a b) q = dictLookup a q := by
  induction b generalizing a with
  | nil => rfl
  | cons p rest ih =>
    obtain ⟨k0, v0⟩ := p
    rw [dictKeys_cons] at h
    have h1 : q ≠ k0 := fun hq => h (by simp [hq])
    have h2 : q ∉ dictKeys rest := fun hm => h (by simp [hm])
    rw [dictUpdate_cons, ih _ h2, dictLookup_insert_ne _ _ _ _ h1]

theorem dictLookup_update_mem (a b : Dict K V) (q : K)
    (hnd : (dictKeys b).Nodup) (h : q ∈ dictKeys b) :
    dictLookup (dictUpdate a b) q = dictLookup b q := by
  induction b generalizing a with
  | nil => simp at h
  | cons p rest ih =>
    obtain ⟨k0, v0⟩ := p
    rw [dictKeys_cons] at hnd h
    obtain ⟨hn1, hn2⟩ := List.nodup_cons.mp hnd
    rw [dictUpdate_cons]
    by_cases hq : q = k0
    · subst hq
      rw [dictLookup_update_notMem _ _ _ hn1, dictLookup_insert_self]
      simp [dictLookup]
    · have hr : q ∈ dictKeys rest := by
        rcases List.mem_cons.mp h with hq0 | hm
        · exact absurd hq0 hq
        · exact hm
      rw [ih _ hn2 hr]
      simp [dictLookup, hq]

theorem dictKeys_update_nodup (a b : Dict K V)
    (h : (dictKeys a).Nodup) : (dictKeys (dictUpdate a b)).Nodup := by
  induction b generalizing a with
  | nil => exact h
  | cons p rest ih =>
    rw [dictUpdate_cons]
    exact ih _ (dictKeys_insert_nodup _ _ _ h)

theorem listHas_iff_mem (l : List K) (k : K) : listHas l k = true ↔ k ∈ l := by
  induction l with
  | nil => simp [listHas]
  | cons x rest ih => by_cases h : k = x <;> simp [listHas, h, ih]

theorem dictLookup_filter (d : Dict K V) (q : K → Bool) (k : K) :
    dictLookup (d.filter (fun p => q p.1)) k =
      if q k then dictLookup d k else none := by
  induction d with
  | nil => simp [dictLookup]
  | cons p rest ih =>
    obtain ⟨k0, v0⟩ := p
    by_cases hq : q k0
    · rw [List.filter_cons_of_pos (by simpa using hq)]
      by_cases hk : k = k0
      · subst hk; simp [dictLookup, hq]
      · simp [dictLookup, hk, ih]
    · rw [List.filter_cons_of_neg (by simpa using hq)]
      by_cases hk : k = k0
      · subst hk; simp [dictLookup, hq, ih]
      · simp [dictLookup, hk, ih]

/-!  Lemmas about `getvalue` -/

theorem getvalue_pred_fail (it : InfoStoreObject I K) (inst : I)
    (c : CacheStore K) (h : predOk it inst = false) :
    it.getvalue inst c = (.error .predicateFailure, c, 0) := by
  simp [InfoStoreObject.getvalue, h]

theorem getvalue_fresh_ok (it : InfoStoreObject I K) (inst : I)
    (c : CacheStore K) (v : Value K)
    (hp : predOk it inst = true) (hm : dictLookup c it.func.id = none)
    (hv : it.get_and_process_value inst = .ok v) :
    it.getvalue inst c =
      (.ok v, if it.cache then dictInsert c it.func.id v else c, 1) := by
  by_cases hc : it.cache <;>
    simp [InfoStoreObject.getvalue, hp, hm, hv, hc]

theorem getvalue_fresh_err (it : InfoStoreObject I K) (inst : I)
    (c : CacheStore K) (e : PyError)
    (hp : predOk it inst = true) (hm : dictLookup c it.func.id = none)
    (hv : it.get_and_process_value inst = .error e) :
    it.getvalue inst c = (.error e, c, 1) := by
  by_cases hc : it.cache <;>
    simp [InfoStoreObject.getvalue, hp, hm, hv, hc]

theorem getvalue_cache_extends (it : InfoStoreObject I K) (inst : I)
    (c : CacheStore K) (j : Nat) (hj : j ≠ it.func.id) :
    dictLookup (it.getvalue inst c).2.1 j = dictLookup c j := by
  unfold InfoStoreObject.getvalue
  by_cases hp : predOk it inst = false
  · simp [hp]
  · by_cases hc : it.cache
    · simp only [hp, hc, if_false, if_true]
      cases hl : dictLookup c it.func.id with
      | some v => simp
      | none =>
        cases hv : it.get_and_process_value inst with
        | ok v => simp [dictLookup_insert_ne _ _ _ _ hj]
        | error e => simp
    · simp only [hp, hc, if_false]
      cases hv : it.get_and_process_value inst with
      | ok v => simp
      | error e => simp

/-!  Lemmas about `evaluateAux` -/

theorem validate_ok_notMem (acc dv : Dict K (Value K)) (u : Unit)
    (h : validate_unique_keys acc dv = .ok u) (q : K) (hq : q ∈ dictKeys acc) :
    q ∉ dictKeys dv := by
  intro hm
  unfold validate_unique_keys at h
  rw [if_pos (List.any_eq_true.mpr ⟨q, hq, (listHas_iff_mem _ _).mpr hm⟩)] at h
  exact absurd h (by simp)

theorem validate_error_of_mem (acc dv : Dict K (Value K)) (q : K)
    (hq : q ∈ dictKeys acc) (hm : q ∈ dictKeys dv) :
    validate_unique_keys acc dv = .error .valueError := by
  unfold validate_unique_keys
  rw [if_pos (List.any_eq_true.mpr ⟨q, hq, (listHas_iff_mem _ _).mpr hm⟩)]

/-- Once a key is present in the accumulated dictionary, the rest of the
evaluation loop cannot change its value, provided no later registry entry
carries that key: later simple items write their own registry key, and a
later concat sub-dictionary overlapping the accumulated keys raises before
merging. -/
theorem evaluateAux_preserves (inst : I)
    (items : List (K × InfoStoreObject I K))
    (c : CacheStore K) (acc d : Dict K (Value K)) (cfin : CacheStore K)
    (q : K) (v : Value K)
    (hrun : evaluateAux inst items c acc = (.ok d, cfin))
    (hq : dictLookup acc q = some v)
    (hkeys : ∀ p ∈ items, p.1 ≠ q) :
    dictLookup d q = some v := by
  induction items generalizing c acc with
  | nil =>
    simp [evaluateAux] at hrun
    rw [← hrun.1]
    exact hq
  | cons p rest ih =>
    obtain ⟨k0, it0⟩ := p
    have hne : k0 ≠ q := hkeys (k0, it0) (List.mem_cons_self _ _)
    have hrest : ∀ p ∈ rest, p.1 ≠ q := fun p hp =>
      hkeys p (List.mem_cons_of_mem _ hp)
    simp only [evaluateAux] at hrun
    split at hrun
    · -- getvalue returned an error
      split at hrun
      · exact ih _ _ hrun hq hrest
      · exact absurd hrun (by simp)
    · -- getvalue returned a value
      split at hrun
      · -- concat item
        split at hrun
        · -- value is a dictionary
          split at hrun
          · exact absurd hrun (by simp)
          · rename_i heqv
            refine ih _ _ hrun ?_ hrest
            rw [dictLookup_update_notMem _ _ _
              (validate_ok_notMem _ _ _ heqv q (mem_dictKeys_of_lookup _ _ _ hq))]
            exact hq
        · exact absurd hrun (by simp)
      · -- simple item: stored under its own registry key
        refine ih _ _ hrun ?_ hrest
        rw [dictLookup_insert_ne _ _ _ _ (Ne.symm hne)]
        exact hq

/-- A successful evaluation run keeps the keys of the accumulated
dictionary free of duplicates. -/
theorem evaluateAux_nodup (inst : I) (items : List (K × InfoStoreObject I K))
    (c : CacheStore K) (acc d : Dict K (Value K)) (cfin : CacheStore K)
    (hrun : evaluateAux inst items c acc = (.ok d, cfin))
    (hacc : (dictKeys acc).Nodup) : (dictKeys d).Nodup := by
  induction items generalizing c acc with
  | nil =>
    simp [evaluateAux] at hrun
    rw [← hrun.1]
    exact hacc
  | cons p rest ih =>
    obtain ⟨k0, it0⟩ := p
    simp only [evaluateAux] at hrun
    split at hrun
    · split at hrun
      · exact ih _ _ hrun hacc
      · exact absurd hrun (by simp)
    · split at hrun
      · split at hrun
        · split at hrun
          · exact absurd hrun (by simp)
          · exact ih _ _ hrun (dictKeys_update_nodup _ _ hacc)
        · exact absurd hrun (by simp)
      · exact ih _ _ hrun (dictKeys_insert_nodup _ _ _ hacc)

/-- One `getvalue` call can add only its own function's identity to the
cache store: every other function stays uncached. -/
theorem hcd_step (it0 : InfoStoreObject I K)
    (rest : List (K × InfoStoreObject I K)) (inst : I) (c : CacheStore K)
    (r : Except PyError (Value K)) (c2 : CacheStore K) (n : Nat)
    (heq : it0.getvalue inst c = (r, c2, n))
    (hids : it0.func.id ∉ rest.map (fun p => p.2.func.id))
    (hcd : ∀ p ∈ rest, dictLookup c p.2.func.id = none) :
    ∀ p ∈ rest, dictLookup c2 p.2.func.id = none := by
  intro p hp
  have hne : p.2.func.id ≠ it0.func.id := fun hco =>
    hids (hco ▸ List.mem_map_of_mem _ hp)
  have h := getvalue_cache_extends it0 inst c _ hne
  rw [heq] at h
  exact h.trans (hcd p hp)

/-- Main population lemma: in a successful evaluation run over a
well-formed registry (keys match the items, registry keys are unique,
function identities are unique and uncached), every non-concat item whose
predicate passes and whose function evaluates to a value is mapped, under
its declared key, to exactly that value in the result. -/
theorem evaluateAux_simple_entry (inst : I)
    (items : List (K × InfoStoreObject I K))
    (c : CacheStore K) (acc d : Dict K (Value K)) (cfin : CacheStore K)
    (k : K) (it : InfoStoreObject I K) (v : Value K)
    (hrun : evaluateAux inst items c acc = (.ok d, cfin))
    (hwf : ∀ p ∈ items, p.1 = p.2.key)
    (hkeys : (items.map (fun p => p.1)).Nodup)
    (hids : (items.map (fun p => p.2.func.id)).Nodup)
    (hcd : ∀ p ∈ items, dictLookup c (p.2.func.id) = none)
    (hmem : (k, it) ∈ items)
    (hsimple : it.concat = false)
    (hpred : predOk it inst = true)
    (hv : it.get_and_process_value inst = .ok v) :
    dictLookup d it.key = some v := by
  induction items generalizing c acc with
  | nil => simp at hmem
  | cons p rest ih =>
    obtain ⟨k0, it0⟩ := p
    have hwfr : ∀ p ∈ rest, p.1 = p.2.key := fun p hp =>
      hwf p (List.mem_cons_of_mem _ hp)
    have hkeysr : (rest.map (fun p => p.1)).Nodup := by
      rw [List.map_cons] at hkeys; exact (List.nodup_cons.mp hkeys).2
    have hkeysh : k0 ∉ rest.map (fun p => p.1) := by
      rw [List.map_cons] at hkeys; exact (List.nodup_cons.mp hkeys).1
    have hidsr : (rest.map (fun p => p.2.func.id)).Nodup := by
      rw [List.map_cons] at hids; exact (List.nodup_cons.mp hids).2
    have hidsh : it0.func.id ∉ rest.map (fun p => p.2.func.id) := by
      rw [List.map_cons] at hids; exact (List.nodup_cons.mp hids).1
    have hcdr : ∀ p ∈ rest, dictLookup c p.2.func.id = none := fun p hp =>
      hcd p (List.mem_cons_of_mem _ hp)
    rcases List.mem_cons.mp hmem with heqh | hmem'
    · -- our item is the head of the registry
      injection heqh with hk hit
      subst hk
      subst hit
      have hgv := getvalue_fresh_ok it inst c v hpred
        (hcd (k, it) (List.mem_cons_self _ _)) hv
      simp only [evaluateAux] at hrun
      rw [hgv] at hrun
      simp only [hsimple, Bool.false_eq_true, if_false] at hrun
      have hkey : k = it.key := hwf (k, it) (List.mem_cons_self _ _)
      refine evaluateAux_preserves inst rest _ _ d cfin it.key v hrun ?_ ?_
      · rw [← hkey, dictLookup_insert_self]
      · intro p hp hpk
        apply hkeysh
        rw [hkey, ← hpk]
        exact List.mem_map_of_mem _ hp
    · -- our item is further down the registry
      simp only [evaluateAux] at hrun
      split at hrun
      · rename_i heq
        split at hrun
        · exact ih _ _ hrun hwfr hkeysr hidsr
            (hcd_step it0 rest inst c _ _ _ heq hidsh hcdr) hmem'
        · exact absurd hrun (by simp)
      · rename_i heq
        split at hrun
        · split at hrun
          · split at hrun
            · exact absurd hrun (by simp)
            · exact ih _ _ hrun hwfr hkeysr hidsr
                (hcd_step it0 rest inst c _ _ _ heq hidsh hcdr) hmem'
          · exact absurd hrun (by simp)
        · exact ih _ _ hrun hwfr hkeysr hidsr
            (hcd_step it0 rest inst c _ _ _ heq hidsh hcdr) hmem'

theorem dictLookup_isSome_of_mem (d : Dict K V) (q : K) (h : q ∈ dictKeys d) :
    (dictLookup d q).isSome := by
  induction d with
  | nil => simp at h
  | cons p rest ih =>
    obtain ⟨k0, v0⟩ := p
    by_cases hq : q = k0
    · simp [dictLookup, hq]
    · simp only [dictKeys_cons, List.mem_cons] at h
      rcases h with h | h
    
      · exact absurd h hq
      · simp [dictLookup, hq, ih h]

theorem dictLookup_eq_none_of_notMem (d : Dict K V) (q : K)
    (h : q ∉ dictKeys d) : dictLookup d q = none := by
  cases hv : dictLookup d q with
  | none => rfl
  | some v => exact absurd (mem_dictKeys_of_lookup _ _ _ hv) h

/-- Skipping lemma: an item whose predicate fails contributes nothing to the
evaluation loop; removing it from the registry list leaves the outcome
(and the cache) unchanged from any intermediate state. -/
theorem evaluateAux_skip_failed (inst : I) (it : InfoStoreObject I K)
    (hpo : predOk it inst = false) (pre : List (K × InfoStoreObject I K)) :
    ∀ post k c acc,
      evaluateAux inst (pre ++ (k, it) :: post) c acc =
        evaluateAux inst (pre ++ post) c acc := by
  induction pre with
  | nil =>
    intro post k c acc
    simp only [List.nil_append, evaluateAux]
    rw [getvalue_pred_fail it inst c hpo]
    simp [caughtByEvaluate]
  | cons p0 prest ih =>
    intro post k c acc
    obtain ⟨k0, it0⟩ := p0
    simp only [List.cons_append, evaluateAux]
    rcases hg : it0.getvalue inst c with ⟨r, c2, n⟩
    cases r with
    | error e =>
      by_cases hce : caughtByEvaluate e
      · simp [hg, hce, ih]
      · simp [hg, hce]
    | ok val =>
      by_cases hcc : it0.concat
      · cases val with
        | vdict dv =>
          cases hvk : validate_unique_keys acc dv with
          | error e2 => simp [hg, hcc, hvk]
          | ok u => simp [hg, hcc, hvk, ih]
        | atom nn => simp [hg, hcc]
        | safe vv => simp [hg, hcc]
      · simp [hg, hcc, ih]

/-- Claim C1: constructing an InfoDict populates its base dictionary from
the registered tagged methods.  Over a well-formed registry (entries stored
under their item's key, registry keys unique, function-object identities
unique — the invariants `InfoStore.register` and Python function identity
establish), if `InfoDict.__init__` returns, then every registered
non-concat item whose predicate passes (and whose function produced a
value) has its declared key mapped to its evaluated value in the final
dictionary; `initialEntries` (the constructor's positional and keyword
arguments) is arbitrary, so on key overlap the evaluated entry overrides
the constructor-supplied one. -/
theorem infoDict_init_populates_simple_items (inst : I)
    (registry : List (K × InfoStoreObject I K))
    (initialEntries d : Dict K (Value K)) (cfin : CacheStore K)
    (k : K) (it : InfoStoreObject I K) (v : Value K)
    (hwf : ∀ p ∈ registry, p.1 = p.2.key)
    (hkeys : (registry.map (fun p => p.1)).Nodup)
    (hids : (registry.map (fun p => p.2.func.id)).Nodup)
    (hinit : InfoDict.init registry inst initialEntries = .ok (d, cfin))
    (hmem : (k, it) ∈ registry)
    (hsimple : it.concat = false)
    (hpred : predOk it inst = true)
    (hv : it.get_and_process_value inst = .ok v) :
    dictLookup d it.key = some v := by
  unfold InfoDict.init InstanceInfoStore.evaluate at hinit
  rcases hev : evaluateAux inst registry [] [] with ⟨res, cache⟩
  rw [hev] at hinit
  cases res with
  | error e => simp at hinit
  | ok ev =>
    simp only [Except.ok.injEq, Prod.mk.injEq] at hinit
    obtain ⟨hd, _⟩ := hinit
    have hlook : dictLookup ev it.key = some v :=
      evaluateAux_simple_entry inst registry [] [] ev cache k it v hev hwf
        hkeys hids (fun p _ => rfl) hmem hsimple hpred hv
    have hnd : (dictKeys ev).Nodup :=
      evaluateAux_nodup inst registry [] [] ev cache hev (by simp)
    rw [← hd,
      dictLookup_update_mem _ _ _ hnd (mem_dictKeys_of_lookup _ _ _ hlook)]
    exact hlook

theorem infoDict_init_populates_simple_items_witness :
    dictLookup [((1 : Nat), Value.atom (K := Nat) 3)]
      (InfoStoreObject.infoStoreItem (I := Nat) (K := Nat)
        ⟨0, 50, fun _ => .ok (.atom 3)⟩ 1 false none false).key =
      some (.atom 3) :=
  infoDict_init_populates_simple_items 0
    [(1, .infoStoreItem ⟨0, 50, fun _ => .ok (.atom 3)⟩ 1 false none false)]
    [(1, .atom 9)] [(1, .atom 3)] [] 1
    (.infoStoreItem ⟨0, 50, fun _ => .ok (.atom 3)⟩ 1 false none false)
    (.atom 3)
    (by intro p hp; rw [List.mem_singleton] at hp; subst hp; rfl)
    (by simp) (by simp) rfl (List.mem_singleton.mpr rfl) rfl rfl rfl

/-- Claim C2: a concat item's `processvalue` keeps exactly those keys `k`
of the function's returned dictionary with `k` in the include set or `k`
not in the exclude set, each mapped to its original value.  In particular
a non-empty include set does not restrict the result to the included keys;
it only exempts keys from exclusion. -/
theorem concat_processvalue_filter (f : AttrFunc I K) (cch ms : Bool)
    (pr : Option (I → Bool)) (incl excl : List K) (inst : I)
    (entries : List (K × Value K))
    (hrun : f.run inst = .ok (.vdict entries)) :
    ∃ dv, (InfoStoreObject.concatInfoStoreItem f cch pr ms incl excl).processvalue
        inst = .ok (.vdict dv) ∧
      ∀ k, dictLookup dv k =
        if listHas incl k || !listHas excl k then dictLookup entries k
        else none := by
  refine ⟨entries.filter (fun p => isincluded incl excl p.1), ?_, ?_⟩
  · simp [InfoStoreObject.processvalue, hrun]
  · intro k
    have hb : isincluded incl excl k = (listHas incl k || !listHas excl k) := by
      unfold isincluded isexcluded
      cases listHas incl k <;> cases listHas excl k <;> rfl
    rw [dictLookup_filter, hb]

theorem concat_processvalue_filter_witness :
    ∃ dv, (InfoStoreObject.concatInfoStoreItem (I := Nat) (K := Nat)
        ⟨0, 9, fun _ => .ok (.vdict [(1, .atom 1), (2, .atom 2)])⟩
        false none false [1] [1, 2]).processvalue 0 = .ok (.vdict dv) ∧
      ∀ k, dictLookup dv k =
        if listHas [1] k || !listHas [1, 2] k
        then dictLookup [(1, Value.atom 1), (2, Value.atom 2)] k
        else none :=
  concat_processvalue_filter ⟨0, 9, fun _ => .ok (.vdict [(1, .atom 1), (2, .atom 2)])⟩
    false false none [1] [1, 2] 0 [(1, .atom 1), (2, .atom 2)] rfl

/-- Claim C3 (amended): for classes created by the freezing machinery,
`__init__`-time assignments always succeed and construction completes with
`_frozen = True`; afterwards attribute assignment raises `RuntimeError`
exactly when the class actually received the freezing `__setattr__`.
`FrozenMeta.__new__` installs it (so e.g. `InstanceInfoStore` instances are
frozen after construction), but `InfoDictMeta.__new__` calls
`super(FrozenMeta, mcs).__new__`, bypassing the installation, so instances
of `InfoDict` subclasses keep accepting assignments after construction. -/
theorem frozen_machinery_setattr (cls : CreatedClass) (asgn : List (K × V)) :
    ∃ o, frozenMetaCall cls asgn = .ok o ∧ o.frozen = true ∧ o.cls = cls ∧
      ∀ k v, (cls.frozenSetattrInstalled = true →
          setattrOn o k v = .error .runtimeError) ∧
        (cls.frozenSetattrInstalled = false →
          setattrOn o k v = .ok { o with attrs := dictInsert o.attrs k v }) := by
  have key : ∀ (asgn : List (K × V)) (o : PyInstance K V), o.frozen = false →
      ∃ o2, runInitAssignments o asgn = .ok o2 ∧ o2.frozen = false ∧
        o2.cls = o.cls := by
    intro asgn
    induction asgn with
    | nil => intro o ho; exact ⟨o, rfl, ho, rfl⟩
    | cons p rest ih =>
      intro o ho
      obtain ⟨k, v⟩ := p
      have hset : setattrOn o k v =
          .ok { o with attrs := dictInsert o.attrs k v } := by
        simp [setattrOn, ho]
      obtain ⟨o2, h1, h2, h3⟩ := ih { o with attrs := dictInsert o.attrs k v } ho
      exact ⟨o2, by simp [runInitAssignments, hset, h1], h2, h3⟩
  obtain ⟨o2, h1, h2, h3⟩ := key asgn ⟨cls, [], false⟩ rfl
  refine ⟨{ o2 with frozen := true }, ?_, rfl, h3, ?_⟩
  · unfold frozenMetaCall
    rw [h1]
  · intro k v
    constructor
    · intro hins
      simp [setattrOn, h3, hins]
    · intro hins
      simp [setattrOn, h3, hins]

theorem frozen_machinery_setattr_witness :
    ∃ o, frozenMetaCall frozenMetaNew [((1 : Nat), (2 : Nat))] = .ok o ∧
      o.frozen = true ∧ o.cls = frozenMetaNew ∧
      ∀ k v, (frozenMetaNew.frozenSetattrInstalled = true →
          setattrOn o k v = .error .runtimeError) ∧
        (frozenMetaNew.frozenSetattrInstalled = false →
          setattrOn o k v = .ok { o with attrs := dictInsert o.attrs k v }) :=
  frozen_machinery_setattr frozenMetaNew [(1, 2)]

/-- Counterexample to claim C3 as stated: an instance of a class created
through `InfoDictMeta` (that is, any InfoDict subclass instance) accepts
attribute assignment after its construction has completed, instead of
raising `RuntimeError`, because `InfoDictMeta.__new__` bypasses
`FrozenMeta.__new__` and the freezing `__setattr__` is never installed. -/
theorem infoDict_instance_not_frozen_cex :
    frozenMetaCall infoDictMetaNew ([] : List (Nat × Nat)) =
      .ok { cls := infoDictMetaNew, attrs := [], frozen := true } ∧
    setattrOn { cls := infoDictMetaNew, attrs := ([] : Dict Nat Nat),
                frozen := true } 1 2 =
      .ok { cls := infoDictMetaNew, attrs := [(1, 2)], frozen := true } :=
  ⟨rfl, rfl⟩

/-- Claim C4: an item with a predicate that returns a falsy value has
`getvalue` raise `InfoStoreItemPredicateFailure` without invoking the
wrapped function (invocation count 0, cache untouched), and `evaluate`
behaves as if the item were absent from the registry: it omits that item's
entry (or entries) and still processes every other item identically. -/
theorem predicate_gates_item (it : InfoStoreObject I K) (inst : I)
    (p : I → Bool) (hp : it.predicate = some p) (hf : p inst = false) :
    (∀ c, it.getvalue inst c = (.error .predicateFailure, c, 0)) ∧
    ∀ pre post k c,
      InstanceInfoStore.evaluate (pre ++ (k, it) :: post) inst c =
        InstanceInfoStore.evaluate (pre ++ post) inst c := by
  have hpo : predOk it inst = false := by simp [predOk, hp, hf]
  refine ⟨fun c => getvalue_pred_fail it inst c hpo, ?_⟩
  intro pre post k c
  exact evaluateAux_skip_failed inst it hpo pre post k c []

theorem predicate_gates_item_witness :
    (InfoStoreObject.infoStoreItem (I := Nat) (K := Nat)
        ⟨3, 7, fun _ => .ok (.atom 1)⟩ 7 false (some (fun _ => false))
        false).getvalue 0 [] = (.error .predicateFailure, [], 0) :=
  (predicate_gates_item
    (.infoStoreItem ⟨3, 7, fun _ => .ok (.atom 1)⟩ 7 false
      (some (fun _ => false)) false)
    0 (fun _ => false) rfl rfl).1 []

/-- Claim C5: for a cache-enabled item whose predicate passes and whose
function evaluates to a value, the first `getvalue` call invokes the
wrapped function once and stores the result in the per-instance cache
store; the second call on the resulting store invokes the function zero
more times and returns the same (cached) value.  The store is state of the
individual instance (`_info_item_cache` is set on the instance itself), so
distinct instances evaluate against their own stores. -/
theorem cache_hits_after_first_call (it : InfoStoreObject I K) (inst : I)
    (c : CacheStore K) (v : Value K)
    (hc : it.cache = true) (hp : predOk it inst = true)
    (hmiss : dictLookup c it.func.id = none)
    (hv : it.get_and_process_value inst = .ok v) :
    it.getvalue inst c = (.ok v, dictInsert c it.func.id v, 1) ∧
    it.getvalue inst (dictInsert c it.func.id v) =
      (.ok v, dictInsert c it.func.id v, 0) := by
  constructor
  · have h := getvalue_fresh_ok it inst c v hp hmiss hv
    rw [hc] at h
    simpa using h
  · simp [InfoStoreObject.getvalue, hp, hc, dictLookup_insert_self]

theorem cache_hits_after_first_call_witness :
    (InfoStoreObject.infoStoreItem (I := Nat) (K := Nat)
        ⟨1, 5, fun _ => .ok (.atom 4)⟩ 5 true none false).getvalue 0 [] =
      (.ok (.atom 4), [(1, .atom 4)], 1) ∧
    (InfoStoreObject.infoStoreItem (I := Nat) (K := Nat)
        ⟨1, 5, fun _ => .ok (.atom 4)⟩ 5 true none false).getvalue 0
        [(1, .atom 4)] = (.ok (.atom 4), [(1, .atom 4)], 0) :=
  cache_hits_after_first_call
    (.infoStoreItem ⟨1, 5, fun _ => .ok (.atom 4)⟩ 5 true none false)
    0 [] (.atom 4) rfl rfl rfl rfl

/-- Claim C6: when the evaluation loop is about to merge a concat item's
filtered sub-dictionary into the accumulated dictionary, an intersection
between the sub-dictionary's keys and the keys already accumulated makes
`evaluate` raise `ValueError` instead of merging; with an empty
intersection the merge proceeds, adding every key of the sub-dictionary
with its value. -/
theorem evaluate_concat_unique_keys (inst : I) (k : K)
    (it : InfoStoreObject I K) (rest : List (K × InfoStoreObject I K))
    (c c2 : CacheStore K) (n : Nat) (acc dv : Dict K (Value K))
    (hconcat : it.concat = true)
    (hgv : it.getvalue inst c = (.ok (.vdict dv), c2, n)) :
    ((dictKeys acc).any (fun x => listHas (dictKeys dv) x) = true →
      evaluateAux inst ((k, it) :: rest) c acc = (.error .valueError, c2)) ∧
    ((dictKeys acc).any (fun x => listHas (dictKeys dv) x) = false →
      evaluateAux inst ((k, it) :: rest) c acc =
        evaluateAux inst rest c2 (dictUpdate acc dv) ∧
      ((dictKeys dv).Nodup → ∀ q ∈ dictKeys dv,
        dictLookup (dictUpdate acc dv) q = dictLookup dv q)) := by
  constructor
  · intro hint
    simp only [evaluateAux]
    rw [hgv]
    simp [hconcat, validate_unique_keys, hint]
  · intro hint
    refine ⟨?_, fun hnd q hq => dictLookup_update_mem _ _ _ hnd hq⟩
    simp only [evaluateAux]
    rw [hgv]
    simp [hconcat, validate_unique_keys, hint]

theorem evaluate_concat_unique_keys_witness :
    evaluateAux (I := Nat) (K := Nat) 0
      [(9, .concatInfoStoreItem ⟨4, 9, fun _ => .ok (.vdict [(1, .atom 1)])⟩
        false none false [] [])] [] [(1, .atom 0)] =
      (.error .valueError, []) :=
  (evaluate_concat_unique_keys 0 9
    (.concatInfoStoreItem ⟨4, 9, fun _ => .ok (.vdict [(1, .atom 1)])⟩
      false none false [] [])
    [] [] [] 1 [(1, .atom 0)] [(1, .atom 1)] rfl rfl).1 rfl

/-- Claim C7: for an item whose predicate passes (with its value not yet
cached), `getvalue` returns `mark_safe` applied to the computed value when
the item is tagged marksafe, and the computed value unwrapped otherwise. -/
theorem marksafe_wraps_value (it : InfoStoreObject I K) (inst : I)
    (c : CacheStore K) (v : Value K)
    (hp : predOk it inst = true)
    (hfresh : it.cache = true → dictLookup c it.func.id = none)
    (hv : it.processvalue inst = .ok v) :
    (it.marksafe = true → (it.getvalue inst c).1 = .ok (mark_safe v)) ∧
    (it.marksafe = false → (it.getvalue inst c).1 = .ok v) := by
  have hgap : it.get_and_process_value inst =
      .ok (if it.marksafe then mark_safe v else v) := by
    unfold InfoStoreObject.get_and_process_value
    rw [hv]
  have h1 : (it.getvalue inst c).1 =
      .ok (if it.marksafe then mark_safe v else v) := by
    by_cases hc : it.cache
    · rw [getvalue_fresh_ok it inst c _ hp (hfresh hc) hgap]
    · simp [InfoStoreObject.getvalue, hp, hc, hgap]
  constructor
  · intro hm; rw [h1, hm]; simp
  · intro hm; rw [h1, hm]; simp

theorem marksafe_wraps_value_witness :
    ((InfoStoreObject.infoStoreItem (I := Nat) (K := Nat)
        ⟨2, 8, fun _ => .ok (.atom 6)⟩ 8 false none true).getvalue 0 []).1 =
      .ok (mark_safe (.atom 6)) :=
  (marksafe_wraps_value
    (.infoStoreItem ⟨2, 8, fun _ => .ok (.atom 6)⟩ 8 false none true)
    0 [] (.atom 6) rfl (fun _ => rfl) rfl).1 rfl

/-- Claim C8: registering an item whose key is already present in the
registry raises `ValueError` (producing no new registry), while
registering an item with a fresh key adds exactly that one mapping: the
new key resolves to the new item and every other key resolves as
before. -/
theorem register_unique_keys (registry : Dict K (InfoStoreObject I K))
    (it : InfoStoreObject I K) :
    (dictHasKey registry it.key = true →
      InfoStore.register registry it = .error .valueError) ∧
    (dictHasKey registry it.key = false →
      InfoStore.register registry it = .ok (dictInsert registry it.key it) ∧
      dictLookup (dictInsert registry it.key it) it.key = some it ∧
      ∀ q, q ≠ it.key →
        dictLookup (dictInsert registry it.key it) q = dictLookup registry q) := by
  constructor
  · intro h
    simp [InfoStore.register, h]
  · intro h
    exact ⟨by simp [InfoStore.register, h], dictLookup_insert_self _ _ _,
      fun q hq => dictLookup_insert_ne _ _ _ _ hq⟩

theorem register_unique_keys_witness :
    InfoStore.register (I := Nat) (K := Nat) []
      (.infoStoreItem ⟨6, 2, fun _ => .ok (.atom 1)⟩ 2 false none false) =
      .ok [(2, .infoStoreItem ⟨6, 2, fun _ => .ok (.atom 1)⟩ 2 false none
        false)] :=
  ((register_unique_keys []
    (.infoStoreItem ⟨6, 2, fun _ => .ok (.atom 1)⟩ 2 false none false)).2
    rfl).1

/-- Claim C9: attribute access on an InfoDict for a name not found through
normal lookup returns the dictionary value stored under that name when the
key is present, and raises `AttributeError` (never `KeyError`) when it is
absent. -/
theorem getattr_resolves_dict_keys (d : Dict K V) (k : K) :
    (∀ v, dictLookup d k = some v → InfoDict.getattr d k = .ok v) ∧
    (dictLookup d k = none → InfoDict.getattr d k = .error .attributeError) ∧
    InfoDict.getattr d k ≠ .error .keyError := by
  refine ⟨?_, ?_, ?_⟩
  · intro v hv
    simp [InfoDict.getattr, dict_getitem, hv]
  · intro hv
    simp [InfoDict.getattr, dict_getitem, hv]
  · cases hv : dictLookup d k <;> simp [InfoDict.getattr, dict_getitem, hv]

theorem getattr_resolves_dict_keys_witness :
    InfoDict.getattr [((1 : Nat), (10 : Nat))] 1 = .ok 10 ∧
    InfoDict.getattr [((1 : Nat), (10 : Nat))] 2 = .error .attributeError :=
  ⟨(getattr_resolves_dict_keys [(1, 10)] 1).1 10 rfl,
   (getattr_resolves_dict_keys [(1, 10)] 2).2.1 rfl⟩

/-- Claim C10: for a ConcatableDict `d` and a dictionary `e`, both `d + e`
and (with a plain dict `e` on the left) `e + d` produce a new dictionary
holding the left operand's entries updated with the right operand's, so
the right-hand operand of `+` wins on every overlapping key; the operation
builds a fresh dictionary and modifies neither operand. -/
theorem concatable_dict_add_semantics (d e : Dict K V)
    (hd : (dictKeys d).Nodup) (he : (dictKeys e).Nodup) (q : K) :
    dictLookup (ConcatableDict.add d e) q =
      (if (dictLookup e q).isSome then dictLookup e q else dictLookup d q) ∧
    dictLookup (ConcatableDict.radd d e) q =
      (if (dictLookup d q).isSome then dictLookup d q else dictLookup e q) := by
  constructor
  · by_cases hmem : q ∈ dictKeys e
    · rw [ConcatableDict.add, ConcatableDict.join_dicts,
        dictLookup_update_mem _ _ _ he hmem,
        if_pos (dictLookup_isSome_of_mem _ _ hmem)]
    · rw [ConcatableDict.add, ConcatableDict.join_dicts,
        dictLookup_update_notMem _ _ _ hmem,
        dictLookup_eq_none_of_notMem _ _ hmem]
      simp
  · by_cases hmem : q ∈ dictKeys d
    · rw [ConcatableDict.radd, ConcatableDict.join_dicts,
        dictLookup_update_mem _ _ _ hd hmem,
        if_pos (dictLookup_isSome_of_mem _ _ hmem)]
    · rw [ConcatableDict.radd, ConcatableDict.join_dicts,
        dictLookup_update_notMem _ _ _ hmem,
        dictLookup_eq_none_of_notMem _ _ hmem]
      simp

theorem concatable_dict_add_semantics_witness :
    dictLookup (ConcatableDict.add [((1 : Nat), (10 : Nat)), (2, 20)]
      [(2, 99), (3, 30)]) 2 = some 99 ∧
    dictLookup (ConcatableDict.radd [((1 : Nat), (10 : Nat)), (2, 20)]
      [(2, 99), (3, 30)]) 2 = some 20 := by
  have h := concatable_dict_add_semantics [((1 : Nat), (10 : Nat)), (2, 20)]
    [(2, 99), (3, 30)] (by decide) (by decide) 2
  exact ⟨h.1.trans (by decide), h.2.trans (by decide)⟩
